import Mathlib

/-!
Shallow embedding of the translation-orchestration core of
`src/utils/translator.py` (the module binds `translate_text` twice; the second
definition, lines 450-541, is the one in effect and is the one embedded here).

Conventions of the embedding:
* Python `str` values are `List Char`; `time.time()` values are `ℚ`;
  Python floats are `ℚ` (all constants involved are decimal literals and the
  comparisons the claims depend on are not float-rounding sensitive).
* The regular-expression engine (`re.finditer` with `re.IGNORECASE`) is an
  oracle parameter `M : String → List Char → List MatchData` mapping a pattern
  source string and a subject text to its match list, in document order.
* The two remote providers are oracle parameters: a list of per-attempt
  outcomes for the OpenAI chat call and a single outcome for googletrans.
* Exceptions are `Except PyExc _`; a caught exception becomes a returned value
  exactly where the source has `try`/`except`.
-/

set_option allowUnsafeReducibility true
attribute [local semireducible] Rat.add Rat.mul Rat.sub Rat.div Rat.inv

namespace NaoMedical

/-- Python `min(a, b)` on two numbers (returns the first argument on ties);
written out so that the kernel can evaluate it on rationals. -/
def pyMin (a b : ℚ) : ℚ := if a ≤ b then a else b

/-- Python `max(a, b)` on two numbers. -/
def pyMax (a b : ℚ) : ℚ := if b ≤ a then a else b

theorem pyMin_eq_min (a b : ℚ) : pyMin a b = min a b := by
  unfold pyMin
  split_ifs with h
  · exact (min_eq_left h).symm
  · exact (min_eq_right (le_of_not_le h)).symm

theorem pyMax_eq_max (a b : ℚ) : pyMax a b = max a b := by
  unfold pyMax
  split_ifs with h
  · exact (max_eq_left h).symm
  · exact (max_eq_right (le_of_not_le h)).symm

/-- Python exception: class name and `str(e)` message. -/
structure PyExc where
  ty : String
  msg : List Char
deriving DecidableEq, Repr

/-- Convert a Lean string literal to the `List Char` text representation. -/
def cs (s : String) : List Char := s.toList

/-- Python `str.lower` (ASCII, which covers every string the module handles). -/
def pyLower (s : List Char) : List Char := s.map Char.toLower

/-- Python `str.upper`. -/
def pyUpper (s : List Char) : List Char := s.map Char.toUpper

/-- Python `str.isupper`: at least one cased character and every cased
character upper-case (terms here are ASCII, where cased = alphabetic). -/
def pyIsUpper (s : List Char) : Bool :=
  s.any (fun c => c.isAlpha) && s.all (fun c => !c.isAlpha || c.isUpper)

/-- `re.match(r'\d', term)` succeeds iff the first character is a digit
(`re.match` anchors at the start of the string). -/
def startsWithDigit (s : List Char) : Bool :=
  match s with
  | [] => false
  | c :: _ => c.isDigit

/-- Whether any character of the string is a digit (the reading the spec's
words "contains a digit" would give; compare `startsWithDigit`). -/
def containsDigit (s : List Char) : Bool := s.any (fun c => c.isDigit)

/-- Python `str.strip()`. -/
def pyStrip (s : List Char) : List Char :=
  ((s.dropWhile Char.isWhitespace).reverse.dropWhile Char.isWhitespace).reverse

/-- Fuel-driven engine for Python `str.replace(pat, rep)`: scan left to right,
replace each non-overlapping occurrence, resume after the inserted
replacement.  The fuel only makes the recursion structural; with
`fuel ≥ s.length` it never runs out (see `replaceFuel_congr`). -/
def replaceFuel (pat rep : List Char) : ℕ → List Char → List Char
  | 0, s => s
  | fuel + 1, s =>
    if pat ≠ [] ∧ pat <+: s then
      rep ++ replaceFuel pat rep fuel (s.drop pat.length)
    else
      match s with
      | [] => []
      | c :: t => c :: replaceFuel pat rep fuel t

/-- Python `s.replace(pat, rep)` for non-empty `pat` (every pattern replaced
in the module — extracted terms and placeholders — is non-empty; on `pat = []`
this returns `s` while Python would interleave `rep`, a case never exercised). -/
def listReplace (pat rep s : List Char) : List Char :=
  replaceFuel pat rep s.length s

theorem replaceFuel_nil (pat rep : List Char) (fuel : ℕ) :
    replaceFuel pat rep fuel [] = [] := by
  cases fuel with
  | zero => rfl
  | succ n =>
    simp only [replaceFuel]
    rw [if_neg]
    rintro ⟨hne, hpre⟩
    exact hne (List.prefix_nil.mp hpre)

theorem replaceFuel_congr (pat rep : List Char) :
    ∀ f g s, s.length ≤ f → s.length ≤ g →
      replaceFuel pat rep f s = replaceFuel pat rep g s := by
  intro f
  induction f with
  | zero =>
    intro g s hf _
    have : s = [] := List.eq_nil_of_length_eq_zero (Nat.le_zero.mp hf)
    subst this
    rw [replaceFuel_nil, replaceFuel_nil]
  | succ f ih =>
    intro g s hf hg
    cases g with
    | zero =>
      have : s = [] := List.eq_nil_of_length_eq_zero (Nat.le_zero.mp hg)
      subst this
      rw [replaceFuel_nil, replaceFuel_nil]
    | succ g =>
      simp only [replaceFuel]
      by_cases h : pat ≠ [] ∧ pat <+: s
      · rw [if_pos h, if_pos h]
        have hpl : 1 ≤ pat.length := by
          cases hp : pat with
          | nil => exact absurd hp h.1
          | cons a t => simp
        have hdl : (s.drop pat.length).length ≤ f := by
          rw [List.length_drop]; omega
        have hdg : (s.drop pat.length).length ≤ g := by
          rw [List.length_drop]; omega
        rw [ih g _ hdl hdg]
      · rw [if_neg h, if_neg h]
        cases s with
        | nil => rfl
        | cons c t =>
          have htf : t.length ≤ f := by simp at hf; omega
          have htg : t.length ≤ g := by simp at hg; omega
          show c :: replaceFuel pat rep f t = c :: replaceFuel pat rep g t
          rw [ih g t htf htg]

/-- Unfolding equation: the scan finds `pat` at the front. -/
theorem listReplace_head_match {pat : List Char} (rep : List Char) {s : List Char}
    (hne : pat ≠ []) (hpre : pat <+: s) :
    listReplace pat rep s = rep ++ listReplace pat rep (s.drop pat.length) := by
  have hpl : 1 ≤ pat.length := by
    cases hp : pat with
    | nil => exact absurd hp hne
    | cons a t => simp
  have hsl : 1 ≤ s.length := le_trans hpl hpre.length_le
  unfold listReplace
  cases hs : s with
  | nil => subst hs; simp at hsl
  | cons c t =>
    subst hs
    simp only [List.length_cons, replaceFuel]
    rw [if_pos ⟨hne, hpre⟩]
    congr 1
    apply replaceFuel_congr
    · rw [List.length_drop]; simp; omega
    · exact le_refl _

/-- Unfolding equation: no match at the front, copy one character. -/
theorem listReplace_miss {pat : List Char} (rep : List Char) {c : Char} {t : List Char}
    (h : ¬ pat <+: (c :: t)) :
    listReplace pat rep (c :: t) = c :: listReplace pat rep t := by
  unfold listReplace
  simp only [List.length_cons, replaceFuel]
  rw [if_neg (fun hh => h hh.2)]

theorem listReplace_nil (pat rep : List Char) : listReplace pat rep [] = [] := rfl

/-! ### Medical pattern table and term extraction -/

/-- `MEDICAL_PATTERNS`: the fixed pattern table (the module defines the same
dict twice, lines 80-88 and 789-797, with identical entries; insertion order
as in the source). -/
def MEDICAL_PATTERNS : List (String × String) :=
  [ ("measurements", "\\b\\d+(?:\\.\\d+)?\\s*(?:mg|mcg|ml|g|kg|mmHg|\u00b0[CF]|cm|mm|IU|mEq|L)\\b"),
    ("vital_signs", "\\b(?:BP|HR|RR|SpO2|Temp|GCS|MAP)[:\\s]*(?:\\d+(?:/\\d+)?)\\b"),
    ("common_abbreviations", "\\b(?:IV|IM|SC|PO|PRN|bid|tid|qid|qd|hs|stat|NPO|N/V|SOB|CP)\\b"),
    ("lab_values", "\\b(?:WBC|RBC|Hgb|Hct|PLT|Na\\+|K\\+|Cl-|HCO3-|BUN|Cr|GFR|AST|ALT)[:\\s]*(?:\\d+(?:\\.\\d+)?)\\b"),
    ("anatomical_terms", "\\b(?:lateral|medial|anterior|posterior|superior|inferior|proximal|distal|bilateral)\\b"),
    ("medical_procedures", "\\b(?:MRI|CT|X-ray|EKG|ECG|EEG|PET|ultrasound|biopsy|endoscopy)\\b"),
    ("common_conditions", "\\b(?:hypertension|diabetes|asthma|COPD|CHF|CAD|MI|CVA|DVT|PE)\\b") ]

/-- `MEDICATION_CLASSES` (used only by `extract_medical_terms`). -/
def MEDICATION_CLASSES : List String :=
  [ "\\b\\w+(?:cillin|mycin|olol|sartan|pril|statin|oxetine|azepam|codone)\\b",
    "\\b(?:aspirin|tylenol|ibuprofen|acetaminophen|morphine|insulin)\\b" ]

/-- `MEDICAL_ABBREVIATIONS` (keys exactly as written in the source; note some
keys are lower-case, so `dict.get(abbr.upper(), abbr)` can never hit them). -/
def MEDICAL_ABBREVIATIONS : List (String × String) :=
  [ ("BP", "Blood Pressure"), ("HR", "Heart Rate"), ("RR", "Respiratory Rate"),
    ("temp", "Temperature"), ("O2", "Oxygen"), ("IV", "Intravenous"),
    ("IM", "Intramuscular"), ("PO", "Per Os (by mouth)"), ("bid", "Twice daily"),
    ("tid", "Three times daily"), ("qid", "Four times daily"), ("prn", "As needed"),
    ("stat", "Immediately"), ("NPO", "Nothing by mouth") ]

/-- One `re.finditer` match: the matched text and its span. -/
structure MatchData where
  matched : List Char
  span : ℕ × ℕ
deriving DecidableEq, Repr

/-- The regex engine, as an oracle: pattern source string and subject text to
the list of matches of `re.finditer(pattern, text, re.IGNORECASE)` in
document order. -/
def Matcher : Type := String → List Char → List MatchData

/-- `expand_medical_abbreviation(abbr)`: look `abbr.upper()` up in
`MEDICAL_ABBREVIATIONS`, defaulting to `abbr` itself (the `lru_cache`
decoration only memoizes this pure lookup). -/
def expand_medical_abbreviation (abbr : List Char) : List Char :=
  match MEDICAL_ABBREVIATIONS.find? (fun e => (cs e.1) = pyUpper abbr) with
  | some e => cs e.2
  | none => abbr

/-- `type_weights.get(term_type, base_confidence)` in
`calculate_term_confidence` (base 0.7). -/
def typeWeight (t : String) : ℚ :=
  if t = "measurements" then 9/10
  else if t = "vital_signs" then 19/20
  else if t = "lab_values" then 17/20
  else if t = "medical_procedures" then 4/5
  else if t = "drug_classes" then 17/20
  else if t = "diagnostic_tests" then 9/10
  else 7/10

/-- `calculate_term_confidence(term, term_type)` (lines 230-256): category
weight, `+0.1` if `term.isupper()`, `+0.05` if `re.match(r'\d', term)`
(i.e. the term starts with a digit), `+0.05` if `len(term) > 3`, capped
at 1.0. -/
def calculate_term_confidence (term : List Char) (term_type : String) : ℚ :=
  let confidence := typeWeight term_type
  let confidence := if pyIsUpper term then confidence + 1/10 else confidence
  let confidence := if startsWithDigit term then confidence + 1/20 else confidence
  let confidence := if term.length > 3 then confidence + 1/20 else confidence
  pyMin 1 confidence

/-- An extracted term record (the dicts built by
`validate_medical_terms_parallel` and `extract_medical_terms`; records of the
latter carry no `expanded` field, embedded as `none`). -/
structure TermInfo where
  term : List Char
  expanded : Option (List Char)
  ttype : String
  position : ℕ × ℕ
  confidence : ℚ
deriving DecidableEq, Repr

/-- Body of `process_patterns` inside `validate_medical_terms_parallel`:
scan one chunk of patterns and build the term records. -/
def process_patterns (M : Matcher) (text : List Char)
    (patterns : List (String × String)) : List TermInfo :=
  patterns.flatMap (fun p =>
    (M p.2 text).map (fun m =>
      let expanded := expand_medical_abbreviation m.matched
      { term := m.matched,
        expanded := if expanded ≠ m.matched then some expanded else none,
        ttype := p.1,
        position := m.span,
        confidence := calculate_term_confidence m.matched p.1 }))

/-- `[items[i:i+3] for i in range(0, len(items), 3)]`: chunks of three. -/
def chunk3 {α : Type} : List α → List (List α)
  | [] => []
  | [a] => [[a]]
  | [a, b] => [[a, b]]
  | a :: b :: c :: rest => [a, b, c] :: chunk3 rest

/-- Stable insertion of a term into a list sorted by descending confidence:
`x` goes before the first element with strictly smaller confidence, so that
elements of equal confidence keep their original relative order (Python's
`list.sort` is stable). -/
def insertByConf (x : TermInfo) : List TermInfo → List TermInfo
  | [] => [x]
  | y :: ys => if x.confidence ≥ y.confidence then x :: y :: ys else y :: insertByConf x ys

/-- `all_terms.sort(key=lambda x: x['confidence'], reverse=True)`. -/
def sortByConfDesc : List TermInfo → List TermInfo
  | [] => []
  | x :: xs => insertByConf x (sortByConfDesc xs)

/-- `validate_medical_terms_parallel(text)` (lines 183-228): partition the
pattern table into chunks of three, scan each chunk (the concurrent tasks are
independent and `asyncio.gather` returns results in task order, so the merge
is a deterministic concatenation), then sort by descending confidence. -/
def validate_medical_terms_parallel (M : Matcher) (text : List Char) : List TermInfo :=
  sortByConfDesc (((chunk3 MEDICAL_PATTERNS).map (process_patterns M text)).flatten)

/-! ### RateLimiter (lines 36-77) -/

structure RateLimiter where
  requests_per_minute : ℕ
  burst_limit : ℕ
  request_times : List ℚ
  backoff_time : ℚ
  last_success : Bool
deriving DecidableEq, Repr

/-- `RateLimiter.can_make_request` (lines 45-54): lazily evict timestamps
older than 60 seconds from the front, then admit (appending `now`) iff the
remaining window holds fewer than `min(requests_per_minute, burst_limit)`
entries.  (The deque's `maxlen=requests_per_minute` bound never evicts,
because appends only happen below `min(requests_per_minute, burst_limit)`.) -/
def can_make_request (rl : RateLimiter) (now : ℚ) : Bool × RateLimiter :=
  let pruned := rl.request_times.dropWhile (fun t => decide (now - t > 60))
  if pruned.length < min rl.requests_per_minute rl.burst_limit then
    (true, { rl with request_times := pruned ++ [now] })
  else
    (false, { rl with request_times := pruned })

/-- `RateLimiter.get_wait_time` (lines 56-61): `max(0, 60 - (now - oldest))`,
`0` on an empty window; no eviction happens here. -/
def get_wait_time (rl : RateLimiter) (now : ℚ) : ℚ :=
  match rl.request_times with
  | [] => 0
  | oldest :: _ => pyMax 0 (60 - (now - oldest))

/-- `RateLimiter.update_backoff` (lines 63-69). -/
def update_backoff (rl : RateLimiter) (success : Bool) : RateLimiter :=
  let rl :=
    if success && !rl.last_success then
      { rl with backoff_time := pyMax 1 (rl.backoff_time / 2) }
    else if !success then
      { rl with backoff_time := pyMin 60 (rl.backoff_time * 2) }
    else rl
  { rl with last_success := success }

/-! ### TranslationCache (lines 90-113) and the result dictionary -/

/-- The dictionary `translate_text` returns: a success dict (lines 516-523)
or the error dict built by the outer `except` (lines 533-541). -/
inductive TransResult where
  | ok (translated source_lang target_lang : List Char) (confidence : ℚ)
      (translation_service : String) (medical_terms : List TermInfo)
  | err (error : String) (message : List Char)
      (details_source details_target : List Char) (error_type : String)
deriving DecidableEq, Repr

def cacheMaxSize : ℕ := 1000

/-- `TranslationCache.get_key`: `f"{text}:{source_lang}:{target_lang}"`. -/
def get_key (text source_lang target_lang : List Char) : List Char :=
  text ++ [':'] ++ source_lang ++ [':'] ++ target_lang

/-- Remove the entry with key `k` (if any) from the ordered cache list
(front = oldest), returning its value and the remaining list. -/
def cacheRemove (k : List Char) :
    List (List Char × TransResult) → Option TransResult × List (List Char × TransResult)
  | [] => (none, [])
  | e :: rest =>
    if e.1 = k then (some e.2, rest)
    else
      let r := cacheRemove k rest
      (r.1, e :: r.2)

/-- `TranslationCache.get`: a hit pops and re-inserts the entry at the
most-recently-used end; a miss leaves the cache unchanged. -/
def cacheGet (c : List (List Char × TransResult)) (k : List Char) :
    Option TransResult × List (List Char × TransResult) :=
  match cacheRemove k c with
  | (some v, rest) => (some v, rest ++ [(k, v)])
  | (none, _) => (none, c)

/-- `TranslationCache.set`: evict the oldest entry when full, then insert
(an existing key is updated in place, as `OrderedDict` assignment does). -/
def cacheSet (k : List Char) (v : TransResult) (c : List (List Char × TransResult)) :
    List (List Char × TransResult) :=
  let c := if c.length ≥ cacheMaxSize then c.drop 1 else c
  if c.any (fun e => e.1 = k) then c.map (fun e => if e.1 = k then (k, v) else e)
  else c ++ [(k, v)]

/-! ### Language table and `normalize_language_code` (lines 543-560, 770-786) -/

def LANGUAGE_CODES : List (String × List String) :=
  [ ("zh", ["zh-CN", "zh-TW", "zh-HK", "cmn", "zh"]),
    ("en", ["en-US", "en-GB", "en-AU", "en"]),
    ("es", ["es-ES", "es-MX", "es-AR", "es"]),
    ("fr", ["fr-FR", "fr-CA", "fr"]),
    ("de", ["de-DE", "de-AT", "de"]),
    ("hi", ["hi-IN", "hi"]),
    ("ja", ["ja-JP", "ja"]),
    ("ko", ["ko-KR", "ko"]),
    ("ru", ["ru-RU", "ru"]),
    ("ar", ["ar-SA", "ar"]),
    ("pt", ["pt-BR", "pt-PT", "pt"]),
    ("it", ["it-IT", "it"]),
    ("nl", ["nl-NL", "nl"]),
    ("pl", ["pl-PL", "pl"]),
    ("tr", ["tr-TR", "tr"]) ]

/-- `normalize_language_code(lang_code)`: lower-case, split at the first `-`;
return the base code if it is a key of `LANGUAGE_CODES`, else the key of the
first entry whose variant list contains the lowered code, else `None`
(also `None` for the empty/falsy input). -/
def normalize_language_code (lang_code : List Char) : Option (List Char) :=
  if lang_code = [] then none
  else
    let l := pyLower lang_code
    let base := l.takeWhile (fun c => c ≠ '-')
    if LANGUAGE_CODES.any (fun e => cs e.1 = base) then some base
    else
      match LANGUAGE_CODES.find? (fun e => (e.2.any (fun v => pyLower (cs v) = l))) with
      | some e => some (cs e.1)
      | none => none

/-- Language-code normalization actually applied inside `translate_text`
(lines 463-464): `lang.lower()[:2]`, with no table validation at all. -/
def lower2 (s : List Char) : List Char := (pyLower s).take 2

/-! ### `openai_translate` (lines 372-448) -/

/-- The retry loop of `openai_translate` with `max_retries = 3`.  The OpenAI
chat call is the oracle `oracle` (one entry consumed per attempt; an `ok`
carries `response.choices[0].message.content`, to which `.strip()` is
applied).  `await asyncio.sleep(w)` advances model time by `w`.  The `fuel`
argument only bounds the admission-wait spin (`continue` without consuming
retry budget) to keep the model total; with the window states used in the
theorems it is never exhausted.  Returns (outcome, rate limiter, time,
number of chat-call attempts made). -/
def openaiLoop (oracle : List (Except PyExc (List Char))) (rl : RateLimiter) (now : ℚ)
    (retry_count max_retries : ℕ) (fuel : ℕ) :
    Except PyExc (List Char) × RateLimiter × ℚ × ℕ :=
  match fuel with
  | 0 => (.error { ty := "ModelFuel", msg := cs ("model fuel exhausted") }, rl, now, 0)
  | fuel + 1 =>
    if retry_count < max_retries then
      match can_make_request rl now with
      | (false, rl1) =>
        let w := get_wait_time rl1 now
        openaiLoop oracle rl1 (now + w) retry_count max_retries fuel
      | (true, rl1) =>
        match oracle with
        | [] => (.error { ty := "ModelOracle", msg := cs ("oracle exhausted") }, rl1, now, 0)
        | .ok content :: _ =>
          (.ok (pyStrip content), update_backoff rl1 true, now, 1)
        | .error e :: rest =>
          let rl2 := update_backoff rl1 false
          if (cs ("insufficient_quota")) <:+: e.msg then
            (.error { ty := "ValueError", msg := cs ("OpenAI quota exceeded") }, rl2, now, 1)
          else if retry_count + 1 < max_retries then
            let w := get_wait_time rl2 now
            match openaiLoop rest rl2 (now + w) (retry_count + 1) max_retries fuel with
            | (r, rl3, now3, n) => (r, rl3, now3, n + 1)
          else (.error e, rl2, now, 1)
    else
      (.error { ty := "ModelLoopExit", msg := cs ("loop exit (unreachable in source)") },
       rl, now, 0)

def loopFuel : ℕ := 9

/-! ### `translate_text` (second definition, lines 450-541) -/

/-- The module-level mutable state `translate_text` touches: the shared
`translation_cache`, the shared `rate_limiter`, the model clock, and two
instrumentation counters for upstream calls (OpenAI chat attempts and
googletrans calls). -/
structure TransState where
  cache : List (List Char × TransResult)
  rl : RateLimiter
  now : ℚ
  openaiAttempts : ℕ
  googleCalls : ℕ
deriving DecidableEq, Repr

/-- `f"__MEDTERM_{i}__"`. -/
def placeholderFor (i : ℕ) : List Char := cs ("__MEDTERM_") ++ cs (toString i) ++ cs ("__")

/-- The protection loop (lines 477-481): for each indexed extracted term with
confidence > 0.8, record `placeholder -> term` and replace every occurrence
of the term in the (rebound) `text` by the placeholder. -/
def protectTerms (terms : List TermInfo) (text : List Char) :
    List (List Char × List Char) × List Char :=
  terms.enum.foldl
    (fun acc p =>
      if p.2.confidence > 8/10 then
        (acc.1 ++ [(placeholderFor p.1, p.2.term)],
         listReplace p.2.term (placeholderFor p.1) acc.2)
      else acc)
    ([], text)

/-- The restoration loop (lines 512-514): replace each placeholder by its
term, in insertion order. -/
def restoreAll (preserved : List (List Char × List Char)) (s : List Char) : List Char :=
  preserved.foldl (fun acc p => listReplace p.1 p.2 acc) s

/-- `translate_text(text, source_lang, target_lang)` (lines 450-541).
`clientReady` models `if not client`; `openaiOracle`/`googleOracle` are the
provider call outcomes.  Every branch mirrors the source: missing client
raises into the outer `except`; language codes are lower-cased and truncated
to 2 characters (no table validation); cache lookup uses the original text;
extraction, protection, primary call with Google fallback, restoration; the
result is cached under the REBOUND `text` (the placeholder-substituted
`textOut`), since line 481 overwrote the variable; both-provider failure
raises `ValueError`, caught by the outer `except` into an error dict. -/
def translate_text (M : Matcher) (openaiOracle : List (Except PyExc (List Char)))
    (googleOracle : Except PyExc (List Char)) (clientReady : Bool)
    (text source_lang target_lang : List Char) (st : TransState) :
    TransResult × TransState :=
  if !clientReady then
    (.err ("translation_failed") (cs ("OpenAI client not available"))
       source_lang target_lang ("ValueError"), st)
  else
    let sl := lower2 source_lang
    let tl := lower2 target_lang
    match cacheGet st.cache (get_key text sl tl) with
    | (some cached, cache') => (cached, { st with cache := cache' })
    | (none, _) =>
      let medical_terms := validate_medical_terms_parallel M text
      let pt := protectTerms medical_terms text
      let preserved := pt.1
      let textOut := pt.2
      match openaiLoop openaiOracle st.rl st.now 0 3 loopFuel with
      | (.ok ttext, rl', now', nAtt) =>
        let translated := restoreAll preserved ttext
        let result := TransResult.ok translated sl tl (19/20) ("openai") medical_terms
        (result,
         { st with cache := cacheSet (get_key textOut sl tl) result st.cache,
                   rl := rl', now := now',
                   openaiAttempts := st.openaiAttempts + nAtt })
      | (.error _, rl', now', nAtt) =>
        match googleOracle with
        | .ok gtext =>
          let translated := restoreAll preserved gtext
          let result := TransResult.ok translated sl tl (17/20) ("google") medical_terms
          (result,
           { st with cache := cacheSet (get_key textOut sl tl) result st.cache,
                     rl := rl', now := now',
                     openaiAttempts := st.openaiAttempts + nAtt,
                     googleCalls := st.googleCalls + 1 })
        | .error g =>
          (.err ("translation_failed")
             (cs ("Both translation services failed. Last error: ") ++ g.msg)
             sl tl ("ValueError"),
           { st with rl := rl', now := now',
                     openaiAttempts := st.openaiAttempts + nAtt,
                     googleCalls := st.googleCalls + 1 })

/-! ### Concrete fixtures used by closed theorems and witnesses -/

/-- The `RateLimiter()` default instance (line 158): 50 rpm, burst 10,
empty window, backoff 1, `last_success = True`. -/
def rl0 : RateLimiter :=
  { requests_per_minute := 50, burst_limit := 10, request_times := [],
    backoff_time := 1, last_success := true }

/-- Fresh module state: empty cache, default rate limiter, clock at 0. -/
def st0 : TransState :=
  { cache := [], rl := rl0, now := 0, openaiAttempts := 0, googleCalls := 0 }

def vitalPat : String := "\\b(?:BP|HR|RR|SpO2|Temp|GCS|MAP)[:\\s]*(?:\\d+(?:/\\d+)?)\\b"

def measPat : String := "\\b\\d+(?:\\.\\d+)?\\s*(?:mg|mcg|ml|g|kg|mmHg|°[CF]|cm|mm|IU|mEq|L)\\b"

/-- Regex-engine behaviour on the subject `"Patient BP 120/80"`: the
vital-signs pattern matches `"BP 120/80"` at span (8, 17); no other pattern
of the table matches. -/
def mPatientBP : Matcher := fun pat text =>
  if text = cs ("Patient BP 120/80") then
    if pat = vitalPat then [{ matched := cs ("BP 120/80"), span := (8, 17) }] else []
  else []

/-- Regex-engine behaviour on the subject `"BP 120/80 5mg"`: the vital-signs
pattern matches `"BP 120/80"` at (0, 9) and the measurements pattern matches
`"5mg"` at (10, 13). -/
def mBP5 : Matcher := fun pat text =>
  if text = cs ("BP 120/80 5mg") then
    if pat = vitalPat then [{ matched := cs ("BP 120/80"), span := (0, 9) }]
    else if pat = measPat then [{ matched := cs ("5mg"), span := (10, 13) }]
    else []
  else []

/-! ### Shape helpers for `translate_text` outcomes -/

/-- A `translate_text` outcome as the caller can observe it: either the
success dictionary or the outer-except error dictionary, whose `error` key is
always the literal `'translation_failed'`. -/
def ResultShape (r : TransResult) : Prop :=
  (∃ t s l c svc terms, r = TransResult.ok t s l c svc terms) ∨
  (∃ m ds dt ty, r = TransResult.err ("translation_failed") m ds dt ty)

theorem cacheRemove_mem {k : List Char} {v : TransResult} :
    ∀ {c : List (List Char × TransResult)},
      (cacheRemove k c).1 = some v → (k, v) ∈ c := by
  intro c
  induction c with
  | nil => intro h; simp [cacheRemove] at h
  | cons e rest ih =>
    intro h
    by_cases he : e.1 = k
    · simp only [cacheRemove, if_pos he] at h
      cases e with
      | mk k' v' =>
        simp at he h
        subst he
        subst h
        exact List.mem_cons_self _ _
    · simp only [cacheRemove, if_neg he] at h
      exact List.mem_cons_of_mem e (ih h)

theorem cacheGet_hit_mem {c : List (List Char × TransResult)} {k : List Char}
    {v : TransResult} (h : (cacheGet c k).1 = some v) : (k, v) ∈ c := by
  unfold cacheGet at h
  rcases hrem : cacheRemove k c with ⟨o, rest⟩
  rw [hrem] at h
  cases o with
  | none => simp at h
  | some w =>
    simp at h
    subst h
    exact cacheRemove_mem (by rw [hrem])

theorem cacheGet_miss {c : List (List Char × TransResult)} {k : List Char}
    (h : (cacheGet c k).1 = none) : cacheGet c k = (none, c) := by
  cases hrem : cacheRemove k c with
  | mk o rest =>
    cases o with
    | some v =>
      exfalso
      unfold cacheGet at h
      rw [hrem] at h
      simp at h
    | none =>
      unfold cacheGet
      rw [hrem]

/-- Totality/shape of `translate_text`: whatever the oracles and state do,
the call returns one of the two dictionary shapes — it never leaks an
exception and its error key is always `'translation_failed'` (all raises
inside the body are caught by the outer `except`). -/
theorem translate_text_shape (M : Matcher) (oo : List (Except PyExc (List Char)))
    (go : Except PyExc (List Char)) (cl : Bool) (text sl tl : List Char)
    (st : TransState) (hcache : ∀ e ∈ st.cache, ResultShape e.2) :
    ResultShape (translate_text M oo go cl text sl tl st).1 := by
  unfold translate_text
  by_cases hcl : cl
  · simp only [hcl, Bool.not_true, Bool.false_eq_true, if_false]
    rcases hget : cacheGet st.cache (get_key text (lower2 sl) (lower2 tl)) with ⟨o, cache'⟩
    cases o with
    | some cached =>
      simp only [hget]
      exact hcache _ (cacheGet_hit_mem (by rw [hget]))
    | none =>
      simp only [hget]
      rcases openaiLoop oo st.rl st.now 0 3 loopFuel with ⟨res, rl', now', nAtt⟩
      cases res with
      | ok ttext => left; exact ⟨_, _, _, _, _, _, rfl⟩
      | error e =>
        cases go with
        | ok gtext => left; exact ⟨_, _, _, _, _, _, rfl⟩
        | error g => right; exact ⟨_, _, _, _, rfl⟩
  · simp only [Bool.not_eq_true] at hcl
    simp only [hcl, Bool.not_false, if_true]
    right
    exact ⟨_, _, _, _, rfl⟩

/-! ### Claim C9 -/

theorem mem_chunk3 {α : Type} :
    ∀ (l : List α), ∀ ch ∈ chunk3 l, ∀ x ∈ ch, x ∈ l
  | [] => by simp [chunk3]
  | [a] => by simp [chunk3]
  | [a, b] => by
    intro ch hch x hx
    simp [chunk3] at hch
    subst hch
    simp at hx
    rcases hx with h | h <;> simp [h]
  | a :: b :: c :: rest => by
    intro ch hch x hx
    simp only [chunk3, List.mem_cons] at hch
    rcases hch with h | h
    · subst h
      simp at hx
      rcases hx with h | h | h <;> simp [h]
    · have := mem_chunk3 rest ch h x hx
      simp [this]

theorem process_patterns_nil (M : Matcher) (text : List Char) :
    ∀ ps : List (String × String), (∀ p ∈ ps, M p.2 text = []) →
      process_patterns M text ps = [] := by
  intro ps h
  induction ps with
  | nil => rfl
  | cons p rest ih =>
    unfold process_patterns at ih ⊢
    rw [List.flatMap_cons, h p (List.mem_cons_self p rest), List.map_nil,
      List.nil_append]
    exact ih (fun q hq => h q (List.mem_cons_of_mem p hq))

/-- C9: for every text with zero matches against every term pattern of the
fixed pattern set, `validate_medical_terms_parallel` returns the empty
sequence. -/
theorem c9_zero_matches_empty (M : Matcher) (text : List Char)
    (h : ∀ p ∈ MEDICAL_PATTERNS, M p.2 text = []) :
    validate_medical_terms_parallel M text = [] := by
  unfold validate_medical_terms_parallel
  have hz : ((chunk3 MEDICAL_PATTERNS).map (process_patterns M text)).flatten = [] := by
    rw [List.flatten_eq_nil_iff]
    intro l hl
    rw [List.mem_map] at hl
    obtain ⟨ch, hch, rfl⟩ := hl
    exact process_patterns_nil M text ch
      (fun p hp => h p (mem_chunk3 MEDICAL_PATTERNS ch hch p hp))
  rw [hz]
  rfl

/-- Witness for C9: the empty regex oracle on `"hello"` extracts nothing. -/
theorem c9_zero_matches_empty_witness :
    validate_medical_terms_parallel (fun _ _ => []) (cs ("hello")) = [] :=
  c9_zero_matches_empty (fun _ _ => []) (cs ("hello")) (fun _ _ => rfl)

/-! ### Claim C8 -/

/-- Modelled from the spec's words, for comparison with the code's
`calculate_term_confidence`: category base weight, `+0.1` if fully
upper-case, `+0.05` if the term CONTAINS a digit (the spec's reading),
`+0.05` if length > 3, capped at 1.0. -/
def spec_confidence_formula (term : List Char) (term_type : String) : ℚ :=
  pyMin 1 (typeWeight term_type
    + (if pyIsUpper term then 1/10 else 0)
    + (if containsDigit term then 1/20 else 0)
    + (if term.length > 3 then 1/20 else 0))

/-- C8 counterexample: the lab-value term `"Na+ 5"` contains a digit but does
not start with one; the code (`re.match(r'\d', term)` anchors at the start)
scores it 0.9, while the claimed formula (`+0.05` if it contains a digit)
gives 0.95. -/
theorem c8_counterexample :
    containsDigit (cs ("Na+ 5")) = true ∧
    startsWithDigit (cs ("Na+ 5")) = false ∧
    calculate_term_confidence (cs ("Na+ 5")) ("lab_values") = 9/10 ∧
    spec_confidence_formula (cs ("Na+ 5")) ("lab_values") = 19/20 ∧
    calculate_term_confidence (cs ("Na+ 5")) ("lab_values") ≠
      spec_confidence_formula (cs ("Na+ 5")) ("lab_values") := by
  refine ⟨by decide, by decide, by decide, by decide, by decide⟩

/-- C8 (amended): the confidence equals the category base weight (which
always lies in [0.7, 0.95]), plus 0.1 if the term is fully upper-case, plus
0.05 if the term STARTS with a digit, plus 0.05 if its length exceeds 3,
capped at 1.0. -/
theorem c8_confidence_formula (term : List Char) (term_type : String) :
    calculate_term_confidence term term_type =
      pyMin 1 (typeWeight term_type
        + (if pyIsUpper term then 1/10 else 0)
        + (if startsWithDigit term then 1/20 else 0)
        + (if term.length > 3 then 1/20 else 0)) ∧
    7/10 ≤ typeWeight term_type ∧ typeWeight term_type ≤ 19/20 ∧
    calculate_term_confidence term term_type ≤ 1 := by
  refine ⟨?_, ?_, ?_, ?_⟩
  · unfold calculate_term_confidence
    split_ifs <;> (congr 1 <;> ring_nf)
  · unfold typeWeight
    split_ifs <;> norm_num
  · unfold typeWeight
    split_ifs <;> norm_num
  · unfold calculate_term_confidence
    exact min_le_left _ _

/-! ### Evaluated paths through `translate_text` -/

/-- The success dictionary produced when the first OpenAI attempt returns
`out` on a cache miss. -/
def okRun (M : Matcher) (text sl tl out : List Char) : TransResult :=
  TransResult.ok
    (restoreAll (protectTerms (validate_medical_terms_parallel M text) text).1 (pyStrip out))
    (lower2 sl) (lower2 tl) (19/20) ("openai") (validate_medical_terms_parallel M text)

/-- The success dictionary produced when the primary fails and googletrans
returns `g` on a cache miss. -/
def googleRun (M : Matcher) (text sl tl g : List Char) : TransResult :=
  TransResult.ok
    (restoreAll (protectTerms (validate_medical_terms_parallel M text) text).1 g)
    (lower2 sl) (lower2 tl) (17/20) ("google") (validate_medical_terms_parallel M text)

theorem can_make_request_empty {rl : RateLimiter} (now : ℚ)
    (hrt : rl.request_times = [])
    (hmin : 0 < min rl.requests_per_minute rl.burst_limit) :
    can_make_request rl now = (true, { rl with request_times := [now] }) := by
  unfold can_make_request
  rw [hrt]
  simp [hmin]

/-- First OpenAI attempt succeeds: one admission, one attempt, backoff reports
success. -/
theorem openaiLoop_first_ok {rl : RateLimiter} (out : List Char)
    (rest : List (Except PyExc (List Char))) (now : ℚ)
    (hrt : rl.request_times = [])
    (hmin : 0 < min rl.requests_per_minute rl.burst_limit) :
    openaiLoop (Except.ok out :: rest) rl now 0 3 loopFuel =
      (.ok (pyStrip out), update_backoff { rl with request_times := [now] } true, now, 1) := by
  show openaiLoop (Except.ok out :: rest) rl now 0 3 9 = _
  unfold openaiLoop
  rw [can_make_request_empty now hrt hmin]
  simp

/-- First OpenAI attempt raises a quota error: the loop records the failure
once and raises `ValueError('OpenAI quota exceeded')` without consuming the
remaining retry budget. -/
theorem openaiLoop_first_quota {rl : RateLimiter} (e : PyExc)
    (rest : List (Except PyExc (List Char))) (now : ℚ)
    (hq : (cs ("insufficient_quota")) <:+: e.msg)
    (hrt : rl.request_times = [])
    (hmin : 0 < min rl.requests_per_minute rl.burst_limit) :
    openaiLoop (Except.error e :: rest) rl now 0 3 loopFuel =
      (.error { ty := "ValueError", msg := cs ("OpenAI quota exceeded") },
       update_backoff { rl with request_times := [now] } false, now, 1) := by
  show openaiLoop (Except.error e :: rest) rl now 0 3 9 = _
  unfold openaiLoop
  rw [can_make_request_empty now hrt hmin]
  simp [hq]

/-- The success path of `translate_text` in one equation: on a cache miss
with an admitting rate limiter, a first-attempt OpenAI success produces the
restored dictionary, caches it under the placeholder-substituted text, and
makes exactly one upstream attempt. -/
theorem translate_text_ok_first (M : Matcher) (out : List Char)
    (rest : List (Except PyExc (List Char))) (go : Except PyExc (List Char))
    (text sl tl : List Char) (st : TransState)
    (hmiss : (cacheGet st.cache (get_key text (lower2 sl) (lower2 tl))).1 = none)
    (hrt : st.rl.request_times = [])
    (hmin : 0 < min st.rl.requests_per_minute st.rl.burst_limit) :
    translate_text M (Except.ok out :: rest) go true text sl tl st =
      (okRun M text sl tl out,
       { st with
           cache := cacheSet
             (get_key (protectTerms (validate_medical_terms_parallel M text) text).2
               (lower2 sl) (lower2 tl))
             (okRun M text sl tl out) st.cache,
           rl := update_backoff { st.rl with request_times := [st.now] } true,
           openaiAttempts := st.openaiAttempts + 1 }) := by
  simp only [translate_text, Bool.not_true]
  rw [cacheGet_miss hmiss]
  rw [openaiLoop_first_ok out rest st.now hrt hmin]
  simp [okRun]

/-- The quota-fallback path of `translate_text` in one equation. -/
theorem translate_text_quota_google (M : Matcher) (e : PyExc)
    (rest : List (Except PyExc (List Char))) (g : List Char)
    (text sl tl : List Char) (st : TransState)
    (hq : (cs ("insufficient_quota")) <:+: e.msg)
    (hmiss : (cacheGet st.cache (get_key text (lower2 sl) (lower2 tl))).1 = none)
    (hrt : st.rl.request_times = [])
    (hmin : 0 < min st.rl.requests_per_minute st.rl.burst_limit) :
    translate_text M (Except.error e :: rest) (Except.ok g) true text sl tl st =
      (googleRun M text sl tl g,
       { st with
           cache := cacheSet
             (get_key (protectTerms (validate_medical_terms_parallel M text) text).2
               (lower2 sl) (lower2 tl))
             (googleRun M text sl tl g) st.cache,
           rl := update_backoff { st.rl with request_times := [st.now] } false,
           openaiAttempts := st.openaiAttempts + 1,
           googleCalls := st.googleCalls + 1 }) := by
  simp only [translate_text, Bool.not_true]
  rw [cacheGet_miss hmiss]
  rw [openaiLoop_first_quota e rest st.now hq hrt hmin]
  simp [googleRun]

/-! ### Claim C2 -/

set_option maxRecDepth 10000

def c2text : List Char := cs ("Patient BP 120/80")

def c2out : List Char := cs ("Paciente __MEDTERM_0__")

/-- First `translate_text("Patient BP 120/80", "en", "es")` call on a fresh
state; the vital-sign term `"BP 120/80"` (confidence 1.0 > 0.8) is protected,
and the provider echoes the placeholder. -/
def c2call1 : TransResult × TransState :=
  translate_text mPatientBP [Except.ok c2out] (Except.ok (cs ("x"))) true
    c2text (cs ("en")) (cs ("es")) st0

/-- Second, identical sequential call, on the state the first call left. -/
def c2call2 : TransResult × TransState :=
  translate_text mPatientBP [Except.ok c2out] (Except.ok (cs ("x"))) true
    c2text (cs ("en")) (cs ("es")) c2call1.2

/-- C2 (code bug, evaluated at the failing input): line 481 rebinds `text`,
so line 526 stores the result under the placeholder-substituted text
`"Patient __MEDTERM_0__"` instead of the original `"Patient BP 120/80"`.
The stored key can never be produced by the lookup on line 467, so the
second identical call misses the cache and makes a second upstream provider
attempt (2 in total instead of 1), even though both calls return equal
results. -/
theorem c2_cache_key_bug :
    (protectTerms (validate_medical_terms_parallel mPatientBP c2text) c2text).2 =
      cs ("Patient __MEDTERM_0__") ∧
    c2call1.2.cache =
      [(get_key (cs ("Patient __MEDTERM_0__")) (cs ("en")) (cs ("es")), c2call1.1)] ∧
    (cacheGet c2call1.2.cache (get_key c2text (cs ("en")) (cs ("es")))).1 = none ∧
    c2call1.2.openaiAttempts = 1 ∧
    c2call2.2.openaiAttempts = 2 ∧
    c2call2.1 = c2call1.1 := by decide

/-! ### Claim C3 -/

/-- A `translate_text` call whose source language `"xx"` does not normalize
against `LANGUAGE_CODES`. -/
def c3call : TransResult × TransState :=
  translate_text mPatientBP [Except.ok (cs ("hola"))] (Except.ok (cs ("x"))) true
    (cs ("hello")) (cs ("xx")) (cs ("es")) st0

/-- C3 counterexample: `"xx"` does not normalize (`normalize_language_code`
returns `None`), yet `translate_text` does not fail with an InvalidLanguage
error — it proceeds through cache lookup and extraction and makes a provider
call, returning an ordinary success dictionary with `source_lang = "xx"`. -/
theorem c3_counterexample :
    normalize_language_code (cs ("xx")) = none ∧
    c3call.1 = TransResult.ok (cs ("hola")) (cs ("xx")) (cs ("es")) (19/20) ("openai") [] ∧
    c3call.2.openaiAttempts = 1 := by decide

/-- C3 (amended): `translate_text` performs no validation against
`LANGUAGE_CODES`: (1) it can never return an `'invalid_language'` error
dictionary (its only error key is `'translation_failed'`); (2) even when a
language code does not normalize, the call proceeds to cache lookup,
extraction and a provider call, returning the ordinary success dictionary
built from the lower-cased 2-character truncation of the codes. -/
theorem c3_no_invalid_language :
    (∀ M oo go cl text sl tl st, (∀ e ∈ st.cache, ResultShape e.2) →
      ∀ m ds dt ty, (translate_text M oo go cl text sl tl st).1 ≠
        TransResult.err ("invalid_language") m ds dt ty) ∧
    (∀ (M : Matcher) out rest go text sl tl (st : TransState),
      normalize_language_code sl = none →
      (cacheGet st.cache (get_key text (lower2 sl) (lower2 tl))).1 = none →
      st.rl.request_times = [] →
      0 < min st.rl.requests_per_minute st.rl.burst_limit →
      (translate_text M (Except.ok out :: rest) go true text sl tl st).1 =
        okRun M text sl tl out ∧
      (translate_text M (Except.ok out :: rest) go true text sl tl st).2.openaiAttempts =
        st.openaiAttempts + 1) := by
  constructor
  · intro M oo go cl text sl tl st hc m ds dt ty heq
    rcases translate_text_shape M oo go cl text sl tl st hc with
      ⟨t, s, l, c, svc, terms, h⟩ | ⟨m', ds', dt', ty', h⟩
    · rw [h] at heq
      exact TransResult.noConfusion heq
    · rw [h] at heq
      injection heq with h1
      exact absurd h1 (by decide)
  · intro M out rest go text sl tl st _ hmiss hrt hmin
    rw [translate_text_ok_first M out rest go text sl tl st hmiss hrt hmin]
    exact ⟨rfl, rfl⟩

/-- Witness for C3's amended theorem: instantiated at the non-normalizing
code `"xx"` with a concrete matcher, provider output and fresh state. -/
theorem c3_no_invalid_language_witness :
    (translate_text mPatientBP [Except.ok (cs ("hola"))] (Except.ok (cs ("x"))) true
        (cs ("hello")) (cs ("xx")) (cs ("es")) st0).1 =
      okRun mPatientBP (cs ("hello")) (cs ("xx")) (cs ("es")) (cs ("hola")) :=
  (c3_no_invalid_language.2 mPatientBP (cs ("hola")) [] (Except.ok (cs ("x")))
    (cs ("hello")) (cs ("xx")) (cs ("es")) st0 (by decide) (by decide) (by decide)
    (by decide)).1

/-! ### Claim C6 -/

/-- C6: when the first primary attempt fails with a quota-exhaustion error
(`'insufficient_quota'` in the message), no further primary attempt happens
(exactly one attempt, the 3-attempt retry budget is not consumed),
`translate_text` falls back to googletrans, the returned dictionary's service
field is `'google'` with the fallback confidence 0.85, and the primary
failure is recorded exactly once on the shared rate limiter (its backoff
doubles once, capped at 60, and `last_success` becomes false). -/
theorem c6_quota_immediate_fallback (M : Matcher) (e : PyExc)
    (rest : List (Except PyExc (List Char))) (g : List Char)
    (text sl tl : List Char) (st : TransState)
    (hq : (cs ("insufficient_quota")) <:+: e.msg)
    (hmiss : (cacheGet st.cache (get_key text (lower2 sl) (lower2 tl))).1 = none)
    (hrt : st.rl.request_times = [])
    (hmin : 0 < min st.rl.requests_per_minute st.rl.burst_limit) :
    (translate_text M (Except.error e :: rest) (Except.ok g) true text sl tl st).1 =
      googleRun M text sl tl g ∧
    (translate_text M (Except.error e :: rest) (Except.ok g) true text sl tl st).2.openaiAttempts =
      st.openaiAttempts + 1 ∧
    (translate_text M (Except.error e :: rest) (Except.ok g) true text sl tl st).2.googleCalls =
      st.googleCalls + 1 ∧
    (translate_text M (Except.error e :: rest) (Except.ok g) true text sl tl st).2.rl.backoff_time =
      pyMin 60 (st.rl.backoff_time * 2) ∧
    (translate_text M (Except.error e :: rest) (Except.ok g) true text sl tl st).2.rl.last_success =
      false := by
  rw [translate_text_quota_google M e rest g text sl tl st hq hmiss hrt hmin]
  refine ⟨rfl, rfl, rfl, ?_, ?_⟩
  · unfold update_backoff
    simp
  · unfold update_backoff
    simp

/-- Witness for C6: a concrete quota failure falls back to googletrans. -/
theorem c6_quota_immediate_fallback_witness :
    (translate_text mPatientBP
        [Except.error { ty := "RateLimitError", msg := cs ("Error 429: insufficient_quota") }]
        (Except.ok (cs ("hola paciente"))) true
        (cs ("hello")) (cs ("en")) (cs ("es")) st0).1 =
      googleRun mPatientBP (cs ("hello")) (cs ("en")) (cs ("es")) (cs ("hola paciente")) :=
  (c6_quota_immediate_fallback mPatientBP
    { ty := "RateLimitError", msg := cs ("Error 429: insufficient_quota") } []
    (cs ("hola paciente")) (cs ("hello")) (cs ("en")) (cs ("es")) st0
    (by decide) (by decide) (by decide) (by decide)).1

/-! ### Claim C10 -/

/-- A `translate_text` call in which all three primary attempts fail with
transient errors and the secondary provider also fails. -/
def c10call : TransResult × TransState :=
  translate_text mPatientBP
    [Except.error { ty := "APIError", msg := cs ("boom1") },
     Except.error { ty := "APIError", msg := cs ("boom2") },
     Except.error { ty := "APIError", msg := cs ("boom3") }]
    (Except.error { ty := "GoogleError", msg := cs ("gfail") }) true
    (cs ("hello")) (cs ("en")) (cs ("es")) st0

/-- C10: `translate_text` is total at its public interface: for every input
and provider behaviour it returns a dictionary — either the success shape or
an error dictionary whose `error` key is `'translation_failed'` with a
message and details — and never propagates an exception (first conjunct,
over every cache whose entries are themselves such dictionaries).  In
particular (second/third conjuncts, evaluated), when all three primary
attempts and the secondary call fail, the caller receives the error
dictionary carrying both services' failure, built from the
`ValueError('Both translation services failed. Last error: ...')` raised
into the outer `except`. -/
theorem c10_total_interface :
    (∀ M oo go cl text sl tl st, (∀ e ∈ st.cache, ResultShape e.2) →
      ResultShape (translate_text M oo go cl text sl tl st).1) ∧
    c10call.1 =
      TransResult.err ("translation_failed")
        (cs ("Both translation services failed. Last error: gfail"))
        (cs ("en")) (cs ("es")) ("ValueError") ∧
    c10call.2.openaiAttempts = 3 ∧
    c10call.2.googleCalls = 1 := by
  refine ⟨translate_text_shape, by decide, by decide, by decide⟩

/-- Witness for C10's universally quantified conjunct, at a concrete state
with an uninitialized client. -/
theorem c10_total_interface_witness :
    ResultShape (translate_text mPatientBP [] (Except.error { ty := "G", msg := cs ("g") })
      false (cs ("t")) (cs ("en")) (cs ("es")) st0).1 :=
  c10_total_interface.1 mPatientBP [] (Except.error { ty := "G", msg := cs ("g") })
    false (cs ("t")) (cs ("en")) (cs ("es")) st0
    (fun e he => by simp [st0] at he)

/-! ### Claim C7 -/

/-- The number of admitted timestamps still inside the trailing 60-second
window at time `now` (the spec's reading of the window size). -/
def windowCount (rl : RateLimiter) (now : ℚ) : ℕ :=
  (rl.request_times.filter (fun t => decide (now - t ≤ 60))).length

theorem dropWhile_stale_eq_filter (now : ℚ) :
    ∀ l : List ℚ, l.Sorted (· ≤ ·) →
      l.dropWhile (fun t => decide (now - t > 60)) =
        l.filter (fun t => decide (now - t ≤ 60)) := by
  intro l hs
  induction l with
  | nil => rfl
  | cons a t ih =>
    rw [List.sorted_cons] at hs
    obtain ⟨ha, hts⟩ := hs
    by_cases h : now - a > 60
    · rw [List.dropWhile_cons_of_pos (by simpa using h),
        List.filter_cons_of_neg (by simpa using not_le_of_lt h)]
      exact ih hts
    · have hle : now - a ≤ 60 := le_of_not_lt h
      rw [List.dropWhile_cons_of_neg (by simpa using h),
        List.filter_cons_of_pos (by simpa using hle)]
      congr 1
      symm
      rw [List.filter_eq_self]
      intro x hx
      simp only [decide_eq_true_eq]
      have : a ≤ x := ha x hx
      linarith

/-- C7: (first conjunct) for a chronologically ordered window,
`can_make_request` returns true — appending the current timestamp to the
pruned window — exactly while the number of admitted timestamps inside the
trailing 60-second window is strictly below
`min(requests_per_minute, burst_limit)`; (second conjunct) once the window
holds that many admissions, all within the last 60 seconds, the next call at
`now + d` returns false until `get_wait_time` — which equals
`max 0 (60 - (now - oldest))` — has elapsed, and returns true strictly
afterwards. -/
theorem c7_rate_limiter :
    (∀ (rl : RateLimiter) (now : ℚ),
      rl.request_times.Sorted (· ≤ ·) →
      (((can_make_request rl now).1 = true ↔
        windowCount rl now < min rl.requests_per_minute rl.burst_limit) ∧
       ((can_make_request rl now).1 = true →
        (can_make_request rl now).2.request_times =
          rl.request_times.filter (fun t => decide (now - t ≤ 60)) ++ [now]))) ∧
    (∀ (rl : RateLimiter) (now : ℚ),
      rl.request_times.Sorted (· ≤ ·) →
      (∀ t ∈ rl.request_times, now - t ≤ 60) →
      rl.request_times.length = min rl.requests_per_minute rl.burst_limit →
      0 < min rl.requests_per_minute rl.burst_limit →
      ∀ d : ℚ, 0 ≤ d →
        ((can_make_request rl (now + d)).1 = true ↔ get_wait_time rl now < d)) := by
  constructor
  · intro rl now hs
    unfold can_make_request windowCount
    rw [dropWhile_stale_eq_filter now rl.request_times hs]
    dsimp only
    constructor
    · split_ifs with h
      · exact iff_of_true rfl h
      · exact iff_of_false (fun hh => by simp at hh) h
    · split_ifs with h
      · intro
        rfl
      · intro hfalse
        simp at hfalse
  · intro rl now hs hin hlen hmin d hd
    rcases hrt : rl.request_times with _ | ⟨oldest, rest⟩
    · rw [hrt] at hlen
      simp at hlen
      omega
    · have hsorted' : (oldest :: rest).Sorted (· ≤ ·) := hrt ▸ hs
      rw [List.sorted_cons] at hsorted'
      obtain ⟨hold, _⟩ := hsorted'
      have holdin : now - oldest ≤ 60 := hin oldest (by rw [hrt]; exact List.mem_cons_self _ _)
      have hw : get_wait_time rl now = 60 - (now - oldest) := by
        unfold get_wait_time
        rw [hrt]
        dsimp only
        unfold pyMax
        split_ifs with hx
        · linarith
        · rfl
      rw [hw]
      unfold can_make_request
      rw [hrt]
      dsimp only
      by_cases hcase : 60 - (now - oldest) < d
      · have hdrop : now + d - oldest > 60 := by linarith
        rw [List.dropWhile_cons_of_pos (by simpa using hdrop)]
        have hlt : (rest.dropWhile (fun t => decide (now + d - t > 60))).length <
            min rl.requests_per_minute rl.burst_limit := by
          have h1 : (rest.dropWhile (fun t => decide (now + d - t > 60))).length ≤
              rest.length := (List.dropWhile_sublist _).length_le
          have h2 : (oldest :: rest).length = min rl.requests_per_minute rl.burst_limit := by
            rw [← hrt]; exact hlen
          simp at h2
          omega
        rw [if_pos hlt]
        simpa using hcase
      · have hstay : ∀ t ∈ oldest :: rest, ¬ (now + d - t > 60) := by
          intro t ht
          have h1 : oldest ≤ t := by
            rcases List.mem_cons.mp ht with h | h
            · rw [h]
            · exact hold t h
          have : now - t ≤ 60 := hin t (by rw [hrt]; exact ht)
          push_neg at hcase
          intro hgt
          have : now + d - oldest > 60 := by linarith
          linarith
        have hdw : (oldest :: rest).dropWhile (fun t => decide (now + d - t > 60)) =
            oldest :: rest := by
          rw [List.dropWhile_cons_of_neg (by simpa using hstay oldest (List.mem_cons_self _ _))]
        rw [hdw]
        have : ¬ ((oldest :: rest).length < min rl.requests_per_minute rl.burst_limit) := by
          have h2 : (oldest :: rest).length = min rl.requests_per_minute rl.burst_limit := by
            rw [← hrt]; exact hlen
          omega
        rw [if_neg this]
        push_neg at hcase
        constructor
        · intro hfalse
          simp at hfalse
        · intro hlt
          linarith

/-- A full two-admission window for the C7 witness. -/
def rlW : RateLimiter :=
  { requests_per_minute := 50, burst_limit := 2, request_times := [0, 30],
    backoff_time := 1, last_success := true }

/-- Witness for C7: with the burst-full window `[0, 30]` observed at time 40,
waiting `d = 30 > get_wait_time = 20` makes the next admission succeed. -/
theorem c7_rate_limiter_witness : (can_make_request rlW (40 + 30)).1 = true :=
  (c7_rate_limiter.2 rlW 40 (by decide) (by decide) (by decide) (by decide)
    30 (by decide)).mpr (by decide)

/-! ### `extract_medical_terms` / `validate_medical_terms` (lines 623-760) -/

def MEDICAL_INDICATORS : List String :=
  ["patient", "doctor", "hospital", "clinic", "diagnosis", "treatment"]

/-- `word[0].isupper()` for a word from `text.split()`. -/
def headIsUpper : List Char → Bool
  | [] => false
  | c :: _ => c.isUpper

/-- Python `text.split()`: split on whitespace runs, no empty words. -/
def splitWs (s : List Char) : List (List Char) :=
  (s.foldr (fun c acc =>
      if c.isWhitespace then [] :: acc
      else
        match acc with
        | [] => [[c]]
        | w :: rest => (c :: w) :: rest) []).filter (fun w => w ≠ [])

/-- `text.index(word)`: index of the first occurrence (the source calls it
only for words produced by `text.split()`, which are always present; absent
substrings map to 0 here, a case never exercised). -/
def firstIndexOf (sub s : List Char) : ℕ :=
  (((List.range (s.length + 1)).find? (fun k => decide (sub <+: s.drop k))).getD 0)

/-- `extract_medical_terms(text)` (lines 623-673): pattern matches at fixed
confidence 0.9, medication-class matches at 0.85, then the capitalised-word
context pass (window `words[max(0,i-2):min(len,i+3)]`, +0.1 per indicator
present, kept only with positive score, confidence `min(0.7 + score, 0.9)`;
these dicts carry no `expanded` field). -/
def extract_medical_terms (M : Matcher) (text : List Char) : List TermInfo :=
  let patTerms := MEDICAL_PATTERNS.flatMap (fun p =>
    (M p.2 text).map (fun m =>
      { term := m.matched, expanded := none, ttype := p.1,
        position := m.span, confidence := 9/10 }))
  let medTerms := MEDICATION_CLASSES.flatMap (fun p =>
    (M p text).map (fun m =>
      { term := m.matched, expanded := none, ttype := "medication",
        position := m.span, confidence := 17/20 }))
  let words := splitWs text
  let capTerms := words.enum.filterMap (fun iw =>
    let i := iw.1
    let word := iw.2
    if headIsUpper word ∧ word.length > 3 then
      let window := (words.drop (i - 2)).take (min words.length (i + 3) - (i - 2))
      let score : ℚ := ((MEDICAL_INDICATORS.filter (fun ind =>
        window.any (fun w => pyLower w = cs ind))).length : ℚ) * (1/10)
      if 0 < score then
        some { term := word, expanded := none, ttype := "potential_medical_term",
               position := (firstIndexOf word text, firstIndexOf word text + word.length),
               confidence := pyMin (7/10 + score) (9/10) }
      else none
    else none)
  patTerms ++ medTerms ++ capTerms

/-- The dictionary shapes `validate_medical_terms` can return: the no-terms
success (line 685), the parsed-JSON result with metadata (lines 731-739), the
raw-content result on a JSON decode failure (lines 741-745), the empty-reply
result (lines 747-752), and the `except` fallback dict (lines 756-760). -/
inductive ValResult where
  | noTerms (text : List Char) (confidence : ℚ) (validated : Bool)
  | parsed (content : List Char) (original_text : List Char) (terms : List TermInfo)
  | correctedRaw (corrected_text : List Char) (confidence : ℚ) (validated : Bool)
  | empty (text : List Char) (confidence : ℚ) (validated : Bool) (message : String)
  | errFallback (error : String) (message : List Char) (original_text : List Char)
deriving DecidableEq, Repr

/-- The `'error'` key of the returned dict, when present. -/
def ValResult.errorKey : ValResult → Option String
  | .errFallback e _ _ => some e
  | _ => none

/-- The top-level `'confidence'` key of the returned dict, when present
(the parsed-JSON dict's confidence lives inside the opaque model output). -/
def ValResult.confidenceKey : ValResult → Option ℚ
  | .noTerms _ c _ => some c
  | .correctedRaw _ c _ => some c
  | .empty _ c _ _ => some c
  | _ => none

/-- `validate_medical_terms(text)` (lines 675-760).  `sync` is the outcome of
evaluating `sync_client.chat.completions.create(...)` — note that the source
module never defines `sync_client`, so evaluating that expression actually
raises `NameError` (an `Except.error`) whenever any term was found; `jsonOk`
abstracts whether `json.loads` accepts the returned content.  Every
exception from the body is caught and returned as the fallback dict. -/
def validate_medical_terms (M : Matcher) (sync : Except PyExc (Option (List Char)))
    (jsonOk : List Char → Bool) (text : List Char) : ValResult :=
  let medical_terms := extract_medical_terms M text
  if medical_terms = [] then .noTerms text 1 true
  else
    match sync with
    | .error e => .errFallback ("validation_failed") e.msg text
    | .ok none => .empty text (1/2) false ("Validation produced no results")
    | .ok (some content) =>
      if jsonOk content then .parsed content text medical_terms
      else .correctedRaw content 1 true

/-! ### Claim C5 -/

/-- The `NameError` that evaluating the undefined name `sync_client`
raises. -/
def nameErr : PyExc := { ty := "NameError", msg := cs ("name sync_client is not defined") }

/-- C5 counterexample: on `"Patient BP 120/80"` (terms are found) with the
provider call failing — as it always does in the source, where `sync_client`
is undefined — `validate_medical_terms` returns a dict carrying an
`'error': 'validation_failed'` marker and NO top-level confidence value, not
the claimed unmodified text with a reduced confidence and a fallback
marker. -/
theorem c5_counterexample :
    validate_medical_terms mPatientBP (Except.error nameErr) (fun _ => false) c2text =
      ValResult.errFallback ("validation_failed") (cs ("name sync_client is not defined"))
        c2text ∧
    (validate_medical_terms mPatientBP (Except.error nameErr) (fun _ => false)
      c2text).errorKey = some ("validation_failed") ∧
    (validate_medical_terms mPatientBP (Except.error nameErr) (fun _ => false)
      c2text).confidenceKey = none := by
  refine ⟨by decide, by decide, by decide⟩

/-- C5 (amended): `validate_medical_terms` never propagates an exception —
the caller always receives a returned dictionary.  When no term is found it
returns the input text with confidence 1.0 without any provider call; on a
provider failure (in the source, every call with terms, since `sync_client`
is undefined) it returns the `except`-branch dictionary
`{'error': 'validation_failed', 'message': ..., 'original_text': text}`,
which carries the unmodified input under `original_text` but is
error-marked and has no reduced-confidence field. -/
theorem c5_validate_degrades (M : Matcher) (e : PyExc) (jsonOk : List Char → Bool)
    (text : List Char) :
    (extract_medical_terms M text = [] →
      validate_medical_terms M (Except.error e) jsonOk text = ValResult.noTerms text 1 true) ∧
    (extract_medical_terms M text ≠ [] →
      validate_medical_terms M (Except.error e) jsonOk text =
        ValResult.errFallback ("validation_failed") e.msg text) := by
  constructor
  · intro h
    unfold validate_medical_terms
    rw [if_pos h]
  · intro h
    unfold validate_medical_terms
    rw [if_neg h]

/-- Witness for C5: the fallback dictionary at a concrete failing input. -/
theorem c5_validate_degrades_witness :
    validate_medical_terms mPatientBP (Except.error nameErr) (fun _ => false) c2text =
      ValResult.errFallback ("validation_failed") nameErr.msg c2text :=
  (c5_validate_degrades mPatientBP nameErr (fun _ => false) c2text).2 (by decide)

/-! ### Claim C4 — CircuitBreaker, modelled from the spec -/

inductive BState where
  | closed
  | opened
  | halfOpen
deriving DecidableEq, Repr

/-- Modelled from the spec: no `CircuitBreaker` exists anywhere in `src/`
(the component of spec section 4.2 is absent from the code); this is the
three-state machine the spec describes: `Closed`/`Open`/`HalfOpen` with
`failureCount` and `lastFailureAt`, one instance per provider. -/
structure CircuitBreaker where
  state : BState
  failureCount : ℕ
  lastFailureAt : ℚ
  failureThreshold : ℕ
  resetTimeout : ℚ
deriving DecidableEq, Repr

/-- Modelled from the spec: `CanExecute` — always true in `Closed`; in
`Open`, false until `resetTimeout` has elapsed since the last failure, then
one trial is granted while transitioning to `HalfOpen`; in `HalfOpen` the
single trial has been handed out, so further calls are false until the trial
resolves the state. -/
def canExecute (b : CircuitBreaker) (now : ℚ) : Bool × CircuitBreaker :=
  match b.state with
  | .closed => (true, b)
  | .opened =>
    if b.resetTimeout ≤ now - b.lastFailureAt then (true, { b with state := .halfOpen })
    else (false, b)
  | .halfOpen => (false, b)

/-- Modelled from the spec: `RecordSuccess` resets to `Closed` with
`failureCount = 0`. -/
def recordSuccess (b : CircuitBreaker) : CircuitBreaker :=
  { b with state := .closed, failureCount := 0 }

/-- Modelled from the spec: `RecordFailure` increments the count, stamps the
failure clock, and opens the breaker on a `HalfOpen` failure or when the
count reaches `failureThreshold`. -/
def recordFailure (b : CircuitBreaker) (now : ℚ) : CircuitBreaker :=
  if b.state = .halfOpen ∨ b.failureThreshold ≤ b.failureCount + 1 then
    { b with state := .opened, failureCount := b.failureCount + 1, lastFailureAt := now }
  else
    { b with failureCount := b.failureCount + 1, lastFailureAt := now }

/-- A sequence of `RecordFailure` calls at the given times. -/
def recordFailures (b : CircuitBreaker) (ts : List ℚ) : CircuitBreaker :=
  ts.foldl recordFailure b

theorem recordFailure_resetTimeout (b : CircuitBreaker) (now : ℚ) :
    (recordFailure b now).resetTimeout = b.resetTimeout := by
  unfold recordFailure
  split_ifs <;> rfl

theorem recordFailures_resetTimeout :
    ∀ (ts : List ℚ) (b : CircuitBreaker),
      (recordFailures b ts).resetTimeout = b.resetTimeout := by
  intro ts
  induction ts with
  | nil => intro b; rfl
  | cons t ts ih =>
    intro b
    show (recordFailures (recordFailure b t) ts).resetTimeout = _
    rw [ih, recordFailure_resetTimeout]

theorem recordFailures_opens :
    ∀ (ts : List ℚ) (b : CircuitBreaker),
      (b.state = .opened ∨
        (b.state = .closed ∧ b.failureThreshold ≤ b.failureCount + ts.length ∧ ts ≠ [])) →
      (recordFailures b ts).state = .opened ∧
      (recordFailures b ts).lastFailureAt = ts.getLastD b.lastFailureAt := by
  intro ts
  induction ts with
  | nil =>
    intro b hb
    rcases hb with h | ⟨_, _, hne⟩
    · exact ⟨h, rfl⟩
    · exact absurd rfl hne
  | cons t ts ih =>
    intro b hb
    have hstep : (recordFailure b t).lastFailureAt = t ∧
        ((recordFailure b t).state = .opened ∨
          ((recordFailure b t).state = b.state ∧
            (recordFailure b t).failureCount = b.failureCount + 1 ∧
            b.failureCount + 1 < b.failureThreshold)) := by
      unfold recordFailure
      split_ifs with h
      · exact ⟨rfl, Or.inl rfl⟩
      · push_neg at h
        exact ⟨rfl, Or.inr ⟨rfl, rfl, h.2⟩⟩
    obtain ⟨hlast, hstate⟩ := hstep
    have hrw : recordFailures b (t :: ts) = recordFailures (recordFailure b t) ts := rfl
    rw [hrw, List.getLastD_cons]
    have hnext : (recordFailure b t).state = .opened ∨
        ((recordFailure b t).state = .closed ∧
          (recordFailure b t).failureThreshold ≤ (recordFailure b t).failureCount + ts.length ∧
          ts ≠ []) := by
      rcases hstate with hop | ⟨hsame, hcount, hnot⟩
      · exact Or.inl hop
      · rcases hb with hbop | ⟨hbcl, hbth, _⟩
        · exact Or.inl (hsame.trans hbop)
        · right
          have hthr : (recordFailure b t).failureThreshold = b.failureThreshold := by
            unfold recordFailure
            split_ifs <;> rfl
          refine ⟨hsame.trans hbcl, ?_, ?_⟩
          · rw [hcount, hthr]
            simp only [List.length_cons] at hbth
            omega
          · intro hne
            subst hne
            simp at hbth
            omega
    have hih := ih (recordFailure b t) hnext
    rw [hlast] at hih
    exact hih

/-- C4 (modelled from the spec): the circuit breaker is the spec's
three-state machine.  (1) After `failureThreshold` consecutive
`RecordFailure` calls starting from a fresh `Closed` breaker, `CanExecute`
returns false at any time before `resetTimeout` has elapsed since the last
failure.  (2) Once `resetTimeout` has elapsed since the last failure of an
`Open` breaker, the next `CanExecute` returns true exactly once — the
half-open trial — and every further `CanExecute` before the trial resolves
returns false.  (3) A success during `HalfOpen` resets the state to `Closed`
with `failureCount = 0`.  (4) A failure during `HalfOpen` returns the state
to `Open` and resets the failure clock to the failure's time. -/
theorem c4_circuit_breaker :
    (∀ (b : CircuitBreaker) (ts : List ℚ) (now : ℚ),
      b.state = .closed → b.failureThreshold ≤ ts.length → ts ≠ [] →
      now - (recordFailures b ts).lastFailureAt < b.resetTimeout →
      (canExecute (recordFailures b ts) now).1 = false) ∧
    (∀ (b : CircuitBreaker) (now : ℚ),
      b.state = .opened → b.resetTimeout ≤ now - b.lastFailureAt →
      canExecute b now = (true, { b with state := .halfOpen }) ∧
      (∀ now2 : ℚ, (canExecute { b with state := BState.halfOpen } now2).1 = false)) ∧
    (∀ b : CircuitBreaker, b.state = .halfOpen →
      (recordSuccess b).state = .closed ∧ (recordSuccess b).failureCount = 0) ∧
    (∀ (b : CircuitBreaker) (now : ℚ), b.state = .halfOpen →
      (recordFailure b now).state = .opened ∧ (recordFailure b now).lastFailureAt = now) := by
  refine ⟨?_, ?_, ?_, ?_⟩
  · intro b ts now hcl hth hne hlt
    have hopen := recordFailures_opens ts b (Or.inr ⟨hcl, by omega, hne⟩)
    unfold canExecute
    rw [hopen.1]
    dsimp only
    rw [if_neg (by rw [recordFailures_resetTimeout]; linarith)]
  · intro b now hop htime
    constructor
    · unfold canExecute
      rw [hop]
      dsimp only
      rw [if_pos htime]
    · intro now2
      unfold canExecute
      rfl
  · intro b _
    exact ⟨rfl, rfl⟩
  · intro b now hhalf
    unfold recordFailure
    rw [if_pos (Or.inl hhalf)]
    exact ⟨rfl, rfl⟩

/-- A fresh breaker with threshold 3 and a 30-second reset timeout. -/
def bW : CircuitBreaker :=
  { state := .closed, failureCount := 0, lastFailureAt := 0,
    failureThreshold := 3, resetTimeout := 30 }

/-- Witness for C4: three consecutive failures trip `bW`; 17 seconds after
the last failure (timeout 30) `CanExecute` refuses. -/
theorem c4_circuit_breaker_witness :
    (canExecute (recordFailures bW [1, 2, 3]) 20).1 = false :=
  c4_circuit_breaker.1 bW [1, 2, 3] 20 rfl (by decide) (by decide) (by decide)

/-! ### Claim C1 — what sequential placeholder restoration guarantees

The restoration loop is a sequence of plain `str.replace` calls.  The three
lemmas below isolate what that mechanism does and does not guarantee:
`listReplace_inserts` (a replaced pattern leaves its replacement in the
text), `listReplace_copies_clean_head` (the scan copies an underscore-free
prefix verbatim), and `listReplace_keeps_clean` (replacing a pattern that
both starts and ends with `'_'` cannot destroy an occurrence of an
underscore-free string that is not a substring of the pattern). -/

theorem listReplace_inserts_aux (pat rep : List Char) (hne : pat ≠ []) :
    ∀ (n : ℕ) (s : List Char), s.length ≤ n → pat <:+: s →
      rep <:+: listReplace pat rep s := by
  intro n
  induction n with
  | zero =>
    intro s hl hinf
    have hs : s = [] := List.eq_nil_of_length_eq_zero (Nat.le_zero.mp hl)
    subst hs
    exact absurd (List.infix_nil.mp hinf) hne
  | succ n ih =>
    intro s hl hinf
    by_cases hp : pat <+: s
    · rw [listReplace_head_match rep hne hp]
      exact (List.prefix_append rep _).isInfix
    · cases s with
      | nil => exact absurd (List.infix_nil.mp hinf) hne
      | cons c t =>
        rcases List.infix_cons_iff.mp hinf with h | h
        · exact absurd h hp
        · rw [listReplace_miss rep hp]
          have ht : t.length ≤ n := by simp at hl; omega
          exact List.infix_cons (ih t ht h)

/-- If `pat` occurs in `s`, then after `s.replace(pat, rep)` the replacement
`rep` occurs in the result. -/
theorem listReplace_inserts (pat rep s : List Char) (hne : pat ≠ [])
    (hinf : pat <:+: s) : rep <:+: listReplace pat rep s :=
  listReplace_inserts_aux pat rep hne s.length s (le_refl _) hinf

/-- The scan of `s.replace(pat, rep)` copies verbatim any prefix of `s` that
contains no underscore, when `pat` starts with one. -/
theorem listReplace_copies_clean_head (pat rep p' : List Char)
    (hpat : pat = '_' :: p') :
    ∀ (x s : List Char), x <+: s → '_' ∉ x →
      listReplace pat rep s = x ++ listReplace pat rep (s.drop x.length) := by
  intro x
  induction x with
  | nil =>
    intro s _ _
    simp
  | cons c x' ih =>
    intro s hx hmem
    obtain ⟨t, rfl⟩ : ∃ t, s = c :: t := by
      rcases hx with ⟨v, hv⟩
      exact ⟨x' ++ v, by rw [← hv]; rfl⟩
    have hcne : c ≠ '_' := fun h => hmem (by rw [h]; exact List.mem_cons_self _ _)
    have hnp : ¬ pat <+: (c :: t) := by
      rw [hpat]
      intro hpre
      rcases List.cons_prefix_cons.mp hpre with ⟨h1, _⟩
      exact hcne h1.symm
    rw [listReplace_miss rep hnp]
    have hx' : x' <+: t := by
      rcases hx with ⟨v, hv⟩
      injection hv with _ h2
      exact ⟨v, h2⟩
    rw [ih t hx' (fun h => hmem (List.mem_cons_of_mem _ h))]
    rfl

/-- The shape every `__MEDTERM_i__` placeholder has: it starts and ends with
an underscore. -/
def PlaceholderShaped (p : List Char) : Prop :=
  (∃ p', p = '_' :: p') ∧ p.getLast? = some '_'

theorem listReplace_keeps_clean_aux (pat rep : List Char)
    (hshape : PlaceholderShaped pat) (x : List Char)
    (hxu : '_' ∉ x) (hxp : ¬ x <:+: pat) :
    ∀ (n : ℕ) (s : List Char), s.length ≤ n → x <:+: s →
      x <:+: listReplace pat rep s := by
  obtain ⟨⟨p', hpat⟩, hlastc⟩ := hshape
  have hne : pat ≠ [] := by rw [hpat]; simp
  by_cases hxnil : x = []
  · subst hxnil
    intro n s _ _
    exact List.nil_infix
  intro n
  induction n with
  | zero =>
    intro s hl hinf
    have hs : s = [] := List.eq_nil_of_length_eq_zero (Nat.le_zero.mp hl)
    subst hs
    rw [listReplace_nil]
    exact hinf
  | succ n ih =>
    intro s hl hinf
    by_cases hp : pat <+: s
    · obtain ⟨s₂, rfl⟩ := hp
      rw [listReplace_head_match rep hne (List.prefix_append pat s₂), List.drop_left]
      obtain ⟨u, v, huv⟩ := hinf
      have hpatlen : 1 ≤ pat.length := by rw [hpat]; simp
      have hL : pat ++ s₂ = u ++ (x ++ v) := by
        rw [← List.append_assoc]
        exact huv.symm
      by_cases hu : pat.length ≤ u.length
      · have hup : pat <+: u :=
          List.prefix_of_prefix_length_le ⟨s₂, hL⟩ (List.prefix_append u (x ++ v)) hu
        obtain ⟨u', rfl⟩ := hup
        have hs₂ : x <:+: s₂ := by
          have h2 : pat ++ s₂ = pat ++ (u' ++ x ++ v) := by
            rw [← huv]
            simp [List.append_assoc]
          exact ⟨u', v, (List.append_cancel_left h2).symm⟩
        have hlen : s₂.length ≤ n := by
          rw [List.length_append] at hl
          omega
        obtain ⟨a, b, hab⟩ := ih s₂ hlen hs₂
        exact ⟨rep ++ a, b, by rw [← hab]; simp [List.append_assoc]⟩
      · push_neg at hu
        have hupat : u <+: pat :=
          List.prefix_of_prefix_length_le ⟨x ++ v, hL.symm⟩ (List.prefix_append pat s₂)
            (le_of_lt hu)
        obtain ⟨w, rfl⟩ := hupat
        have hw : w ≠ [] := by
          intro hwe
          rw [hwe] at hu
          simp at hu
        have hxv : x ++ v = w ++ s₂ := by
          have h5 : u ++ (x ++ v) = u ++ (w ++ s₂) := by
            rw [← List.append_assoc, ← List.append_assoc]
            exact huv
          exact List.append_cancel_left h5
        by_cases hxw : x.length ≤ w.length
        · have hxpre : x <+: w :=
            List.prefix_of_prefix_length_le ⟨v, hxv⟩ (List.prefix_append w s₂) hxw
          exact absurd (hxpre.isInfix.trans ⟨u, [], by simp⟩) hxp
        · push_neg at hxw
          have hwx : w <+: x :=
            List.prefix_of_prefix_length_le ⟨s₂, hxv.symm⟩ (List.prefix_append x v)
              (le_of_lt hxw)
          have hlw : w.getLast? = some '_' := by
            rw [List.getLast?_append] at hlastc
            rcases hw' : w.getLast? with _ | a
            · rw [List.getLast?_eq_none_iff] at hw'
              exact absurd hw' hw
            · rw [hw'] at hlastc
              simpa using hlastc
          have humem : '_' ∈ w := List.mem_of_getLast?_eq_some hlw
          exact absurd (hwx.sublist.subset humem) hxu
    · cases s with
      | nil =>
        rw [listReplace_nil]
        exact hinf
      | cons c t =>
        rcases List.infix_cons_iff.mp hinf with h | h
        · rw [listReplace_copies_clean_head pat rep p' hpat x (c :: t) h hxu]
          exact (List.prefix_append x _).isInfix
        · rw [listReplace_miss rep hp]
          have ht : t.length ≤ n := by simp at hl; omega
          exact List.infix_cons (ih t ht h)

/-- Replacing a placeholder-shaped pattern cannot destroy an occurrence of an
underscore-free string that is not a substring of the pattern. -/
theorem listReplace_keeps_clean (pat rep : List Char) (hshape : PlaceholderShaped pat)
    (x s : List Char) (hxu : '_' ∉ x) (hxp : ¬ x <:+: pat) (hinf : x <:+: s) :
    x <:+: listReplace pat rep s :=
  listReplace_keeps_clean_aux pat rep hshape x hxu hxp s.length s (le_refl _) hinf

/-- The whole restoration tail preserves an underscore-free occurrence. -/
theorem restoreAll_keeps_clean (x : List Char) (hxu : '_' ∉ x) :
    ∀ (pairs : List (List Char × List Char)) (s : List Char),
      (∀ pt ∈ pairs, PlaceholderShaped pt.1 ∧ ¬ x <:+: pt.1) →
      x <:+: s → x <:+: restoreAll pairs s := by
  intro pairs
  induction pairs with
  | nil =>
    intro s _ h
    exact h
  | cons pt pairs ih =>
    intro s hcond hinf
    show x <:+: restoreAll pairs (listReplace pt.1 pt.2 s)
    obtain ⟨hsh, hxp⟩ := hcond pt (List.mem_cons_self _ _)
    exact ih (listReplace pt.1 pt.2 s)
      (fun q hq => hcond q (List.mem_cons_of_mem _ hq))
      (listReplace_keeps_clean pt.1 pt.2 hsh x s hxu hxp hinf)

/-- Main restoration guarantee: if every pair's placeholder still occurs in
the text when its restoration step runs, every term occurs in the final
text. -/
theorem restoreAll_contains (pairs : List (List Char × List Char)) (s : List Char)
    (hshape : ∀ pt ∈ pairs, PlaceholderShaped pt.1)
    (hterm : ∀ pt ∈ pairs, '_' ∉ pt.2 ∧ ∀ pt' ∈ pairs, ¬ pt.2 <:+: pt'.1)
    (hsurv : ∀ i (hi : i < pairs.length),
      (pairs.get ⟨i, hi⟩).1 <:+: restoreAll (pairs.take i) s) :
    ∀ i (hi : i < pairs.length), (pairs.get ⟨i, hi⟩).2 <:+: restoreAll pairs s := by
  intro i hi
  have h1 : restoreAll pairs s =
      restoreAll (pairs.drop (i + 1)) (restoreAll (pairs.take (i + 1)) s) := by
    conv_lhs => rw [← List.take_append_drop (i + 1) pairs]
    unfold restoreAll
    rw [List.foldl_append]
  have h2 : pairs.take (i + 1) = pairs.take i ++ [pairs.get ⟨i, hi⟩] := by
    rw [List.take_succ, List.getElem?_eq_getElem hi]
    rfl
  have h3 : restoreAll (pairs.take (i + 1)) s =
      listReplace (pairs.get ⟨i, hi⟩).1 (pairs.get ⟨i, hi⟩).2
        (restoreAll (pairs.take i) s) := by
    rw [h2]
    unfold restoreAll
    rw [List.foldl_append]
    rfl
  have hmem : pairs.get ⟨i, hi⟩ ∈ pairs := List.get_mem pairs i hi
  have hne : (pairs.get ⟨i, hi⟩).1 ≠ [] := by
    obtain ⟨⟨p', hp'⟩, _⟩ := hshape _ hmem
    rw [hp']
    simp
  have hins : (pairs.get ⟨i, hi⟩).2 <:+: restoreAll (pairs.take (i + 1)) s := by
    rw [h3]
    exact listReplace_inserts _ _ _ hne (hsurv i hi)
  rw [h1]
  apply restoreAll_keeps_clean _ (hterm _ hmem).1
  · intro q hq
    have hqmem : q ∈ pairs := List.mem_of_mem_drop hq
    exact ⟨hshape q hqmem, (hterm _ hmem).2 q hqmem⟩
  · exact hins

/-- The translated text of a result dictionary, when it is a success. -/
def TransResult.translatedText : TransResult → Option (List Char)
  | .ok t _ _ _ _ _ => some t
  | .err _ _ _ _ _ => none

theorem placeholderFor_shaped (i : ℕ) : PlaceholderShaped (placeholderFor i) := by
  constructor
  · exact ⟨cs ("_MEDTERM_") ++ cs (toString i) ++ cs ("__"), rfl⟩
  · unfold placeholderFor
    rw [List.getLast?_append, List.getLast?_append]
    rfl

theorem protectTerms_shape (terms : List TermInfo) (text : List Char) :
    ∀ pt ∈ (protectTerms terms text).1, ∃ i : ℕ, pt.1 = placeholderFor i := by
  unfold protectTerms
  have haux : ∀ (l : List (ℕ × TermInfo)) (acc : List (List Char × List Char))
      (txt : List Char), (∀ pt ∈ acc, ∃ i : ℕ, pt.1 = placeholderFor i) →
      ∀ pt ∈ (l.foldl
        (fun acc p =>
          if p.2.confidence > 8/10 then
            (acc.1 ++ [(placeholderFor p.1, p.2.term)],
             listReplace p.2.term (placeholderFor p.1) acc.2)
          else acc) (acc, txt)).1,
        ∃ i : ℕ, pt.1 = placeholderFor i := by
    intro l
    induction l with
    | nil =>
      intro acc txt hacc
      exact hacc
    | cons p l ih =>
      intro acc txt hacc
      rw [List.foldl_cons]
      by_cases hc : p.2.confidence > 8/10
      · rw [if_pos hc]
        apply ih
        intro pt hpt
        rcases List.mem_append.mp hpt with h | h
        · exact hacc pt h
        · simp at h
          exact ⟨p.1, by rw [h]⟩
      · rw [if_neg hc]
        exact ih acc txt hacc
  exact haux terms.enum [] text (by simp)

/- ### The C1 counterexample run -/

def c1text : List Char := cs ("BP 120/80 5mg")

/-- A provider output that contains both placeholders — but with their
occurrences overlapping. -/
def c1badOut : List Char := cs ("__MEDTERM_0__MEDTERM_1____")

def c1call : TransResult × TransState :=
  translate_text mBP5 [Except.ok c1badOut] (Except.ok (cs ("x"))) true
    c1text (cs ("en")) (cs ("es")) st0

/-- C1 counterexample: on `"BP 120/80 5mg"` both extracted terms are
protected (`"BP 120/80"` ↦ `__MEDTERM_0__`, `"5mg"` ↦ `__MEDTERM_1__`, the
outgoing text being `"__MEDTERM_0__ __MEDTERM_1__"`).  The provider output
`"__MEDTERM_0__MEDTERM_1____"` contains BOTH placeholders byte-for-byte, yet
after restoration the final result text is `"BP 120/80MEDTERM_1____"`, which
does not contain `"5mg"`: replacing `__MEDTERM_0__` consumed part of the
overlapping `__MEDTERM_1__` occurrence, so the claim's guarantee fails for
this provider output. -/
theorem c1_counterexample :
    (protectTerms (validate_medical_terms_parallel mBP5 c1text) c1text).1 =
      [(cs ("__MEDTERM_0__"), cs ("BP 120/80")), (cs ("__MEDTERM_1__"), cs ("5mg"))] ∧
    (protectTerms (validate_medical_terms_parallel mBP5 c1text) c1text).2 =
      cs ("__MEDTERM_0__ __MEDTERM_1__") ∧
    cs ("__MEDTERM_0__") <:+: c1badOut ∧
    cs ("__MEDTERM_1__") <:+: c1badOut ∧
    c1call.1.translatedText = some (cs ("BP 120/80MEDTERM_1____")) ∧
    ¬ cs ("5mg") <:+: cs ("BP 120/80MEDTERM_1____") := by
  refine ⟨by decide, by decide, by decide, by decide, by decide, by decide⟩

/-- C1 (amended): for a first-attempt provider success `out` on a cache miss,
every protected term whose placeholder occurrence survives to its own
restoration step — in particular, whenever the placeholder occurrences in
the (stripped) provider output are pairwise non-overlapping and undamaged by
the preceding replacements — appears verbatim in the final result text.
The term-side conditions (non-empty, no underscore, not a substring of any
placeholder) hold for every string the medical patterns can match and are
hypotheses here because the regex engine is an oracle. -/
theorem c1_protected_terms_restored (M : Matcher) (out : List Char)
    (rest : List (Except PyExc (List Char))) (go : Except PyExc (List Char))
    (text sl tl : List Char) (st : TransState)
    (hmiss : (cacheGet st.cache (get_key text (lower2 sl) (lower2 tl))).1 = none)
    (hrt : st.rl.request_times = [])
    (hmin : 0 < min st.rl.requests_per_minute st.rl.burst_limit)
    (hterm : ∀ pt ∈ (protectTerms (validate_medical_terms_parallel M text) text).1,
      '_' ∉ pt.2 ∧
      ∀ pt' ∈ (protectTerms (validate_medical_terms_parallel M text) text).1,
        ¬ pt.2 <:+: pt'.1)
    (hsurv : ∀ i (hi : i <
        (protectTerms (validate_medical_terms_parallel M text) text).1.length),
      ((protectTerms (validate_medical_terms_parallel M text) text).1.get ⟨i, hi⟩).1 <:+:
        restoreAll
          ((protectTerms (validate_medical_terms_parallel M text) text).1.take i)
          (pyStrip out)) :
    ∀ i (hi : i <
        (protectTerms (validate_medical_terms_parallel M text) text).1.length),
      (translate_text M (Except.ok out :: rest) go true text sl tl st).1.translatedText =
        some (restoreAll (protectTerms (validate_medical_terms_parallel M text) text).1
          (pyStrip out)) ∧
      ((protectTerms (validate_medical_terms_parallel M text) text).1.get ⟨i, hi⟩).2 <:+:
        restoreAll (protectTerms (validate_medical_terms_parallel M text) text).1
          (pyStrip out) := by
  intro i hi
  constructor
  · rw [translate_text_ok_first M out rest go text sl tl st hmiss hrt hmin]
    rfl
  · apply restoreAll_contains
    · intro pt hpt
      obtain ⟨j, hj⟩ := protectTerms_shape (validate_medical_terms_parallel M text) text pt hpt
      rw [hj]
      exact placeholderFor_shaped j
    · exact hterm
    · exact hsurv

/-- A provider output in which the placeholders occur disjointly. -/
def c1goodOut : List Char := cs ("A __MEDTERM_0__ B __MEDTERM_1__ C")

/-- Witness for C1's amended theorem: with disjoint placeholder occurrences
the protected term `"5mg"` survives into the final text. -/
theorem c1_protected_terms_restored_witness :
    (translate_text mBP5 [Except.ok c1goodOut] (Except.ok (cs ("x"))) true
        c1text (cs ("en")) (cs ("es")) st0).1.translatedText =
      some (restoreAll (protectTerms (validate_medical_terms_parallel mBP5 c1text) c1text).1
        (pyStrip c1goodOut)) ∧
    ((protectTerms (validate_medical_terms_parallel mBP5 c1text) c1text).1.get
        ⟨1, by decide⟩).2 <:+:
      restoreAll (protectTerms (validate_medical_terms_parallel mBP5 c1text) c1text).1
        (pyStrip c1goodOut) :=
  c1_protected_terms_restored mBP5 c1goodOut [] (Except.ok (cs ("x")))
    c1text (cs ("en")) (cs ("es")) st0 (by decide) (by decide) (by decide)
    (by decide)
    (by intro i hi
        have hlen2 : (protectTerms (validate_medical_terms_parallel mBP5 c1text)
            c1text).1.length = 2 := by decide
        rcases i with _ | _ | n
        · exact (by decide :
            ((protectTerms (validate_medical_terms_parallel mBP5 c1text) c1text).1.get
                ⟨0, by decide⟩).1 <:+:
              restoreAll
                (List.take 0
                  (protectTerms (validate_medical_terms_parallel mBP5 c1text) c1text).1)
                (pyStrip c1goodOut))
        · exact (by decide :
            ((protectTerms (validate_medical_terms_parallel mBP5 c1text) c1text).1.get
                ⟨1, by decide⟩).1 <:+:
              restoreAll
                (List.take 1
                  (protectTerms (validate_medical_terms_parallel mBP5 c1text) c1text).1)
                (pyStrip c1goodOut))
        · exact absurd hi (by rw [hlen2]; omega))
    1 (by decide)

end NaoMedical
